import Mathlib

/-!
Verification of the report-parsing core of the Corner-AI repository
(`reportParser`, the module holding `extractTimestamps`, `parseReportSections`,
`extractFindings`, `extractStrengths`, `extractDecisionTree`,
`extractOverallAssessment`, `parseSelfScoutReport`, `validateReport`).

Text is modelled as `List Char` (`Str`).  JavaScript regular-expression
behaviour is reproduced by hand-rolled matchers; wherever a regex is
deterministic (disjoint first-character sets make backtracking irrelevant)
the matcher is written directly, otherwise the leftmost-first backtracking
order of the JS engine is enumerated explicitly.  JS `\s` is modelled by its
ASCII members; `toLowerCase` by `Char.toLower` (correct on ASCII, which is
all the keyword logic inspects).  `crypto.randomUUID()` ids and
`new Date()` creation times are nondeterministic and are omitted from the
embedded records; no verified claim mentions them.
-/

abbrev Str : Type := List Char

/-- ASCII members of the JS whitespace class `\s`. -/
def isWsChar (c : Char) : Bool :=
  c = ' ' ∨ c = '\t' ∨ c = '\n' ∨ c = '\r' ∨ c = '\x0b' ∨ c = '\x0c'

/-- JS `String.prototype.trim`. -/
def trimWs (s : Str) : Str :=
  ((s.dropWhile isWsChar).reverse.dropWhile isWsChar).reverse

/-- JS `String.prototype.toLowerCase` (ASCII). -/
def toLowerStr (s : Str) : Str := s.map Char.toLower

/-- JS `text.split('\n')`; note `"".split('\n') = [""]`. -/
def splitLines : Str → List Str
  | [] => [[]]
  | c :: rest =>
    if c = '\n' then [] :: splitLines rest
    else
      match splitLines rest with
      | l :: ls => (c :: l) :: ls
      | [] => [[c]]

/-- Does `s` start with `pat`? -/
def startsWithStr : Str → Str → Bool
  | [], _ => true
  | _ :: _, [] => false
  | p :: ps, c :: cs => if p = c then startsWithStr ps cs else false

/-- JS `hay.includes(pat)` (substring containment). -/
def hasSubstr (hay pat : Str) : Bool :=
  match hay with
  | [] => startsWithStr pat []
  | c :: rest => startsWithStr pat (c :: rest) || hasSubstr rest pat

/-- Case-insensitive prefix removal: the literal `pat` (given lowercase)
matched case-insensitively against the front of `s`. -/
def dropCI (pat s : Str) : Option Str :=
  if startsWithStr pat (toLowerStr (s.take pat.length)) then some (s.drop pat.length)
  else none

def digitVal (c : Char) : Nat := c.toNat - '0'.toNat

/-- Numeric value of a digit string, as JS `Number` computes it. -/
def digitsToNat (s : Str) : Nat := s.foldl (fun acc c => 10 * acc + digitVal c) 0

/-- Decimal rendering of a natural number (JS template interpolation). -/
def natToStr (n : Nat) : Str := (Nat.repr n).data

/-- JS `n.toString().padStart(2, '0')` for `n ≤ 99`. -/
def pad2 (n : Nat) : Str := if n < 10 then '0' :: natToStr n else natToStr n

-- ===========================================================================
-- TIMESTAMP EXTRACTION  (source: extractTimestamps and helpers)
-- ===========================================================================

/-- The `category` union of the `Timestamp` interface (TimestampMarker)
together with the extra values used by `Finding.category`. -/
inductive TsCategory
  | striking | grappling | defensive | pattern | mental | movement | cardio | other
deriving DecidableEq

structure Timestamp where
  time : Str
  seconds : Nat
  label : Str
  category : TsCategory
deriving DecidableEq

/-- Greedy `\d{1,2}` followed by further context: returns the numeric value,
the number of digits consumed (1 or 2) and the remaining characters. -/
def parseOneTwoDigits : Str → Option (Nat × Nat × Str)
  | [] => none
  | [c1] => if c1.isDigit then some (digitVal c1, 1, []) else none
  | c1 :: c2 :: rest =>
    if c1.isDigit then
      if c2.isDigit then some (10 * digitVal c1 + digitVal c2, 2, rest)
      else some (digitVal c1, 1, c2 :: rest)
    else none

/-- `\d{1,2}:\d{2}`: returns (minutes, seconds, consumed length, rest). -/
def parseTimeCore (s : Str) : Option (Nat × Nat × Nat × Str) :=
  match parseOneTwoDigits s with
  | some (m, mlen, rest1) =>
    match rest1 with
    | ':' :: d1 :: d2 :: rest2 =>
      if d1.isDigit ∧ d2.isDigit then some (m, 10 * digitVal d1 + digitVal d2, mlen + 3, rest2)
      else none
    | _ => none
  | none => none

def isCloseBr (c : Char) : Bool := c = ']' ∨ c = ')'

/-- Attempt of the regex `[\[\(](\d{1,2}:\d{2})(?:-\d{1,2}:\d{2})?[\]\)]`
anchored at the head of `cs`; returns (minutes, seconds, match length).
The regex is deterministic: digits, ':', '-' and the closing bracket have
disjoint first characters, so no backtracking can change the outcome. -/
def matchTsAt : Str → Option (Nat × Nat × Nat)
  | [] => none
  | c :: rest =>
    if c = '[' ∨ c = '(' then
      match parseTimeCore rest with
      | some (m, s, len1, rest1) =>
        match rest1 with
        | [] => none
        | c2 :: rest2 =>
          if c2 = '-' then
            -- the optional range: if it fails, the no-range alternative
            -- would need a closing bracket at '-', which also fails
            match parseTimeCore rest2 with
            | some (_, _, len2, rest3) =>
              match rest3 with
              | c3 :: _ => if isCloseBr c3 then some (m, s, len1 + len2 + 3) else none
              | [] => none
            | none => none
          else if isCloseBr c2 then some (m, s, len1 + 2) else none
      | none => none
    else none

def nlToSpace (c : Char) : Char := if c = '\n' ∨ c = '\r' then ' ' else c

/-- Keyword sets of `categorizeTimestampContext`, in the order tested. -/
def tsStrikingKws : List Str :=
  ["punch".data, "kick".data, "jab".data, "cross".data, "hook".data, "uppercut".data,
   "overhand".data, "elbow".data, "knee".data, "strike".data, "striking".data, "boxing".data]

def tsGrapplingKws : List Str :=
  ["takedown".data, "clinch".data, "submission".data, "guard".data, "mount".data, "choke".data,
   "wrestling".data, "grappl".data, "ground".data, "back control".data, "half guard".data,
   "side control".data]

def tsDefensiveKws : List Str :=
  ["block".data, "dodge".data, "slip".data, "parry".data, "defense".data, "defensive".data,
   "head movement".data, "sprawl".data]

def tsPatternKws : List Str :=
  ["habit".data, "pattern".data, "always".data, "tends".data, "consistently".data,
   "every time".data, "predictable".data, "telegrap".data]

def containsAnyOf (hay : Str) (kws : List Str) : Bool := kws.any (fun kw => hasSubstr hay kw)

def categorizeTimestampContext (context : Str) : TsCategory :=
  let lower := toLowerStr context
  if containsAnyOf lower tsStrikingKws then .striking
  else if containsAnyOf lower tsGrapplingKws then .grappling
  else if containsAnyOf lower tsDefensiveKws then .defensive
  else if containsAnyOf lower tsPatternKws then .pattern
  else .other

/-- Builds the Timestamp pushed for a match at index `i` of `full` with
minutes `m` and seconds `s`. -/
def mkTs (full : Str) (i m s : Nat) : Timestamp :=
  let start := i - 50
  let stop := min full.length (i + 50)
  let context := trimWs (((full.drop start).take (stop - start)).map nlToSpace)
  { time := natToStr m ++ ':' :: pad2 s
  , seconds := m * 60 + s
  , label := context.take 40 ++ (if context.length > 40 then "...".data else [])
  , category := categorizeTimestampContext context }

/-- The `regex.exec` loop of `extractTimestamps`: scan left to right, on a
match emit a Timestamp and resume after the matched span.  `fuel` only makes
the recursion structural; the top-level call passes the list length, which
always suffices since every step consumes at least one character. -/
def scanTsFuel (full : Str) : Nat → Str → Nat → List Timestamp
  | 0, _, _ => []
  | _ + 1, [], _ => []
  | fuel + 1, c :: rest, i =>
    match matchTsAt (c :: rest) with
    | some (m, s, len) => mkTs full i m s :: scanTsFuel full fuel (rest.drop (len - 1)) (i + len)
    | none => scanTsFuel full fuel rest (i + 1)

/-- Source `extractTimestamps`. -/
def extractTimestamps (text : Str) : List Timestamp :=
  if text = [] then [] else scanTsFuel text text.length text 0

/-- Source `stripTimestamps`: global replace of the timestamp pattern, then trim. -/
def stripTsFuel : Nat → Str → Str
  | 0, s => s
  | _ + 1, [] => []
  | fuel + 1, c :: rest =>
    match matchTsAt (c :: rest) with
    | some (_, _, len) => stripTsFuel fuel (rest.drop (len - 1))
    | none => c :: stripTsFuel fuel rest

def stripTimestamps (text : Str) : Str := trimWs (stripTsFuel text.length text)

-- ===========================================================================
-- SECTION PARSING  (source: parseReportSections and helpers)
-- ===========================================================================

structure ReportSection where
  id : Str
  title : Str
  content : Str
  timestamps : List Timestamp
deriving DecidableEq

/-- JS `.replace(/\*\*/g, '')`. -/
def removeBoldMarks : Str → Str
  | '*' :: '*' :: rest => removeBoldMarks rest
  | c :: rest => c :: removeBoldMarks rest
  | [] => []

/-- The regex `^(#{1,3})\s+(.+)` applied to a (trimmed, newline-free) line;
returns the raw group-2 capture.  `#{1,3}` cannot shrink below the full hash
run (the next character would be '#', not whitespace), and `\s+` cannot
shrink (the following character of the capture would be whitespace matched
by `.` only after a successful parse anyway), so the matcher is direct. -/
def hashHeadingTitle (t : Str) : Option Str :=
  let h := (t.takeWhile (fun c => c = '#')).length
  if 1 ≤ h ∧ h ≤ 3 then
    let rest := t.drop h
    if (rest.takeWhile isWsChar).length ≥ 1 then
      let raw := rest.dropWhile isWsChar
      if raw = [] then none else some raw
    else none
  else none

/-- Character class `[A-Z0-9\s&:,-]` of the legacy bold-header regex. -/
def inBoldClass (c : Char) : Bool :=
  ('A' ≤ c ∧ c ≤ 'Z') ∨ c.isDigit ∨ isWsChar c ∨ c = '&' ∨ c = ':' ∨ c = ',' ∨ c = '-'

/-- The regex `^\*\*[A-Z0-9\s&:,-]+\*\*$` (the class excludes '*', so the
only possible split is leading "**", class body, trailing "**"). -/
def isBoldHeaderLine (t : Str) : Bool :=
  match t with
  | '*' :: '*' :: rest =>
    decide (rest.length ≥ 3) &&
      decide (rest.drop (rest.length - 2) = ['*', '*']) &&
      (rest.take (rest.length - 2)).all inBoldClass
  | _ => false

/-- Header recognition of `parseReportSections` on the trimmed line,
returning the cleaned title (`.replace(/\*\*/g,'').trim()`). -/
def headerTitle (t : Str) : Option Str :=
  match hashHeadingTitle t with
  | some raw => some (trimWs (removeBoldMarks raw))
  | none => if isBoldHeaderLine t then some (trimWs (removeBoldMarks t)) else none

def idKeepChar (c : Char) : Bool := ('a' ≤ c ∧ c ≤ 'z') ∨ c.isDigit ∨ isWsChar c

/-- JS `.replace(/\s+/g, '-')`: every maximal whitespace run becomes one '-'.
The flag records whether the previous character was whitespace. -/
def wsHyphenAux : Bool → Str → Str
  | _, [] => []
  | prevWs, c :: rest =>
    if isWsChar c then
      if prevWs then wsHyphenAux true rest else '-' :: wsHyphenAux true rest
    else c :: wsHyphenAux false rest

/-- Source `generateSectionId`. -/
def generateSectionId (title : Str) : Str :=
  ((wsHyphenAux false ((toLowerStr title).filter idKeepChar)).take 50)

/-- Source: finalize the accumulating section before pushing it. -/
def finalizeSection (sec : ReportSection) : ReportSection :=
  let content := trimWs sec.content
  { sec with content := content, timestamps := extractTimestamps content }

structure ParseState where
  sections : List ReportSection
  current : Option ReportSection
deriving DecidableEq

/-- One iteration of the `lines.forEach` loop of `parseReportSections`. -/
def processLine (st : ParseState) (line : Str) : ParseState :=
  let t := trimWs line
  if t = [] then
    match st.current with
    | some cur => { st with current := some { cur with content := cur.content ++ ['\n'] } }
    | none => st
  else
    match headerTitle t with
    | some title =>
      let secs :=
        match st.current with
        | some cur => st.sections ++ [finalizeSection cur]
        | none => st.sections
      { sections := secs
      , current := some { id := generateSectionId title, title := title, content := [], timestamps := [] } }
    | none =>
      match st.current with
      | some cur => { st with current := some { cur with content := cur.content ++ line ++ ['\n'] } }
      | none =>
        { st with current := some { id := "intro".data, title := "Introduction".data
                                  , content := line ++ ['\n'], timestamps := [] } }

/-- Source `parseReportSections`. -/
def parseReportSections (md : Str) : List ReportSection :=
  if md = [] then []
  else
    let st := (splitLines md).foldl processLine ⟨[], none⟩
    match st.current with
    | some cur => st.sections ++ [finalizeSection cur]
    | none => st.sections

-- ===========================================================================
-- FINDING EXTRACTION  (source: extractFindings and helpers)
-- ===========================================================================

inductive Severity
  | critical | high | medium | low
deriving DecidableEq

inductive Confidence
  | high | medium | low | inconclusive
deriving DecidableEq

/-- The Finding interface.  The `id` field (`crypto.randomUUID()`) is
nondeterministic and omitted; no verified claim mentions ids. -/
structure Finding where
  title : Str
  description : Str
  severity : Severity
  category : TsCategory
  instanceCount : Nat
  confidence : Confidence
  timestamps : List Timestamp
  counterEvidence : Option Str
deriving DecidableEq

/-- Leftmost match of `/\*\*([^*]+)\*\*/`: two stars, a nonempty star-free
run, two stars.  After the maximal star-free run the next character is '*'
or the end; a shorter run would have to be followed by `\*\*` inside the
star-free region, which is impossible, so the greedy run is forced. -/
def findBold : Str → Option Str
  | '*' :: '*' :: rest =>
    let body := rest.takeWhile (fun c => c ≠ '*')
    if body.length ≥ 1 ∧ startsWithStr ['*', '*'] (rest.drop body.length) then some body
    else findBold ('*' :: rest)
  | _ :: rest => findBold rest
  | [] => none

/-- Source `extractTitle`. -/
def extractTitle (text : Str) : Str :=
  match findBold text with
  | some g =>
    let cleanTitle := stripTimestamps g
    if cleanTitle.take 60 = [] then "Untitled Finding".data else cleanTitle.take 60
  | none =>
    let firstSentence := text.takeWhile (fun c => ¬ (c = '.' ∨ c = '!' ∨ c = '?'))
    let base := if firstSentence = [] then text else firstSentence
    let cleanText := stripTimestamps base
    if cleanText = [] ∨ cleanText.length < 3 then "Untitled Finding".data
    else cleanText.take 60 ++ (if cleanText.length > 60 then "...".data else [])

def sevCriticalKws : List Str := ["critical".data, "major hole".data, "biggest".data]

def sevHighKws : List Str := ["high".data, "significant".data, "dangerous".data]

def sevLowKws : List Str := ["low".data, "minor".data, "small".data]

/-- Source `inferSeverity`.  `index` is the index the call site passes,
namely the position of the line inside `section.content.split('\n')`. -/
def inferSeverity (sectionTitle text : Str) (index : Nat) : Severity :=
  let lower := toLowerStr (sectionTitle ++ ' ' :: text)
  if containsAnyOf lower sevCriticalKws then .critical
  else if containsAnyOf lower sevHighKws then .high
  else if containsAnyOf lower sevLowKws then .low
  else if index ≤ 2 then .high
  else if index ≤ 5 then .medium
  else .low

def catStrikingKws : List Str :=
  ["punch".data, "kick".data, "jab".data, "cross".data, "hook".data, "strike".data,
   "striking".data, "boxing".data, "overhand".data, "hands".data, "chin".data]

def catGrapplingKws : List Str :=
  ["takedown".data, "clinch".data, "submission".data, "guard".data, "mount".data,
   "grappl".data, "wrestling".data, "ground".data, "back".data, "rnc".data, "choke".data]

def catMovementKws : List Str :=
  ["stance".data, "footwork".data, "movement".data, "balance".data, "position".data,
   "lateral".data, "pivot".data, "circle".data]

def catCardioKws : List Str :=
  ["cardio".data, "tired".data, "fatigue".data, "gas".data, "pace".data,
   "breathing".data, "output".data]

def catMentalKws : List Str :=
  ["mental".data, "frustrat".data, "panic".data, "composure".data, "iq".data, "decision".data]

/-- Source `inferCategory`. -/
def inferCategory (text : Str) : TsCategory :=
  let lower := toLowerStr text
  if containsAnyOf lower catStrikingKws then .striking
  else if containsAnyOf lower catGrapplingKws then .grappling
  else if containsAnyOf lower catMovementKws then .movement
  else if containsAnyOf lower catCardioKws then .cardio
  else if containsAnyOf lower catMentalKws then .mental
  else .pattern

/-- Source `inferConfidence`. -/
def inferConfidence (text : Str) (timestampCount : Nat) : Confidence :=
  let lower := toLowerStr text
  if containsAnyOf lower ["inconclusive".data, "unclear".data, "cannot assess".data] then .inconclusive
  else if hasSubstr lower "low confidence".data then .low
  else if timestampCount ≥ 3 then .high
  else if timestampCount ≥ 1 then .medium
  else .low

/-- The tail `:?\s*([^.]+)` of the counter-evidence regex after the literal
"counter[- ]?evidence" has matched: optional colon, greedy whitespace, then
a nonempty dot-free capture — if the text after the maximal whitespace run
is empty or starts with '.', the engine backtracks one whitespace character
into the capture. -/
def ceCaptureTail (s : Str) : Option Str :=
  let s1 := match s with
    | ':' :: r => r
    | r => r
  let w := (s1.takeWhile isWsChar).length
  let afterW := s1.drop w
  if afterW ≠ [] ∧ afterW.headD ' ' ≠ '.' then
    some ((s1.drop w).takeWhile (fun c => c ≠ '.'))
  else if w ≥ 1 then
    some ((s1.drop (w - 1)).takeWhile (fun c => c ≠ '.'))
  else none

/-- The alternative `counter[- ]?evidence:?\s*([^.]+)` anchored at `s`
(case-insensitive); the optional "[- ]" cannot mask a match since
"evidence" starts with a letter. -/
def ceCounterAt (s : Str) : Option Str :=
  match dropCI "counter".data s with
  | some r1 =>
    let r2 := match r1 with
      | c :: r => if c = '-' ∨ c = ' ' then r else r1
      | [] => r1
    match dropCI "evidence".data r2 with
    | some r3 => ceCaptureTail r3
    | none => none
  | none => none

/-- One position of the regex
`/however|but|except|although|counter[- ]?evidence:?\s*([^.]+)/i`.
`some none` means a match whose capture group did not participate
(the four bare conjunctions); the alternatives have pairwise distinct
first letters, so the listed order never matters at one position. -/
def ceMatchAt (s : Str) : Option (Option Str) :=
  if (dropCI "however".data s).isSome ∨ (dropCI "but".data s).isSome ∨
      (dropCI "except".data s).isSome ∨ (dropCI "although".data s).isSome then
    some none
  else
    match ceCounterAt s with
    | some cap => some (some cap)
    | none => none

def ceScan : Str → Option (Option Str)
  | [] => none
  | c :: rest =>
    match ceMatchAt (c :: rest) with
    | some r => some r
    | none => ceScan rest

/-- Source `extractCounterEvidence`: `counterMatch[1]?.trim()` is undefined
whenever the matching alternative has no capture group. -/
def extractCounterEvidence (text : Str) : Option Str :=
  match ceScan text with
  | some (some cap) => some (trimWs cap)
  | some none => none
  | none => none

/-- First character is one of the anchored bullet alternatives `^[-*•]`. -/
def headBullet (s : Str) : Bool :=
  match s with
  | c :: _ => c = '-' ∨ c = '*' ∨ c = '•'
  | [] => false

/-- Does `\d+\.\s` match somewhere in `s`?  (The second alternative of the
finding item test `/^[-*•]|\d+\.\s/` is NOT anchored.)  A match at a
position requires the maximal digit run there to be followed by '.' and one
whitespace character. -/
def hasNumDotWs : Str → Bool
  | [] => false
  | c :: rest =>
    (c.isDigit &&
      (match (c :: rest).dropWhile Char.isDigit with
       | '.' :: w :: _ => isWsChar w
       | _ => false)) || hasNumDotWs rest

/-- Does `\d+\.` match somewhere in `s`?  (strength item test `/^[-*•]|\d+\./`). -/
def hasNumDot : Str → Bool
  | [] => false
  | c :: rest =>
    (c.isDigit &&
      (match (c :: rest).dropWhile Char.isDigit with
       | '.' :: _ => true
       | _ => false)) || hasNumDot rest

/-- Does `\d+\.` (followed by `\s*`) match at this position? -/
def numDotHere (s : Str) : Bool :=
  match s with
  | c :: _ =>
    c.isDigit &&
      (match s.dropWhile Char.isDigit with
       | '.' :: _ => true
       | _ => false)
  | [] => false

/-- Remove the leftmost occurrence of `\d+\.\s*` (digits, dot, then the
maximal whitespace run), keeping everything else. -/
def removeNumDotFirst : Str → Str
  | [] => []
  | c :: rest =>
    if numDotHere (c :: rest) then
      (((c :: rest).dropWhile Char.isDigit).tail).dropWhile isWsChar
    else c :: removeNumDotFirst rest

/-- JS `cleanLine.replace(/^[-*•]|\d+\.\s*/, '')`: the first alternative is
anchored (only tried at position 0) and each alternative removes only what
it matches. -/
def stripItemMark (cl : Str) : Str :=
  match cl with
  | c :: rest => if c = '-' ∨ c = '*' ∨ c = '•' then rest else removeNumDotFirst (c :: rest)
  | [] => []

/-- Finding item-line test `cleanLine.match(/^[-*•]|\d+\.\s/)`. -/
def itemLineTest (cl : Str) : Bool := headBullet cl || hasNumDotWs cl

/-- The body of the `lines.forEach((line, index))` loop of
`extractFindingsFromSection`: builds the Finding a line produces, if any. -/
def findingOfLine (sectionTitle : Str) (index : Nat) (line : Str) : Option Finding :=
  let cleanLine := trimWs line
  if itemLineTest cleanLine ∧ cleanLine.length > 15 then
    let text := trimWs (stripItemMark cleanLine)
    if text.length > 10 then
      let tss := extractTimestamps text
      some { title := extractTitle text
           , description := text
           , severity := inferSeverity sectionTitle text index
           , category := inferCategory text
           , instanceCount := if tss.length = 0 then 1 else tss.length
           , confidence := inferConfidence text tss.length
           , timestamps := tss
           , counterEvidence := extractCounterEvidence text }
    else none
  else none

def findingsFromLines (sectionTitle : Str) : Nat → List Str → List Finding
  | _, [] => []
  | i, l :: ls =>
    match findingOfLine sectionTitle i l with
    | some f => f :: findingsFromLines sectionTitle (i + 1) ls
    | none => findingsFromLines sectionTitle (i + 1) ls

/-- Source `extractFindingsFromSection`. -/
def extractFindingsFromSection (sec : ReportSection) : List Finding :=
  findingsFromLines sec.title 0 (splitLines sec.content)

/-- Deduplication key: `f.title.toLowerCase().substring(0, 30)`. -/
def dedupKey (f : Finding) : Str := (toLowerStr f.title).take 30

def dedupAux : List Finding → List Str → List Finding
  | [], _ => []
  | f :: rest, seen =>
    if dedupKey f ∈ seen then dedupAux rest seen
    else f :: dedupAux rest (dedupKey f :: seen)

/-- Source `deduplicateFindings` (the `seen` set starts empty). -/
def deduplicateFindings (fs : List Finding) : List Finding := dedupAux fs []

/-- `Math.min(...timestamps.map(t => t.seconds))`, `none` when the item has
no timestamps (the comparator then treats it as `Infinity`). -/
def earliestSeconds (f : Finding) : Option Nat :=
  match f.timestamps.map (fun t => t.seconds) with
  | [] => none
  | s :: ss => some (ss.foldl min s)

/-- The comparator `aEarliest - bEarliest` of the chronological sort, as a
total preorder (`Infinity - Infinity` is `NaN`, which `Array.sort` treats
as 0, i.e. a tie). -/
def keyLe (a b : Finding) : Bool :=
  match earliestSeconds a, earliestSeconds b with
  | none, none => true
  | none, some _ => false
  | some _, none => true
  | some x, some y => x ≤ y

def findingSectionKeywords : List Str :=
  ["weaknesses".data, "exploitable patterns".data, "habits".data,
   "bad habits".data, "major holes".data]

def isFindingSection (sec : ReportSection) : Bool :=
  findingSectionKeywords.any (fun kw => hasSubstr (toLowerStr sec.title) kw)

/-- All findings pushed from the candidate sections, in source order. -/
def collectFindings (sections : List ReportSection) : List Finding :=
  (sections.filter isFindingSection).flatMap extractFindingsFromSection

/-- Source `extractFindings`.  `Array.prototype.sort` is stable (ES2019) and
the comparator is a total preorder, so its result is the unique stable sort,
modelled by `List.insertionSort` (which is that stable sort).  `rawContent`
is accepted but never read, exactly as in the source. -/
def extractFindings (sections : List ReportSection) (rawContent : Str) : List Finding :=
  List.insertionSort (fun a b => keyLe a b = true) (deduplicateFindings (collectFindings sections))

-- ===========================================================================
-- STRENGTH EXTRACTION  (source: extractStrengths)
-- ===========================================================================

def strengthKeywords : List Str :=
  ["strengths".data, "good things".data, "offensive threats".data]

def isStrengthSection (sec : ReportSection) : Bool :=
  strengthKeywords.any (fun kw => hasSubstr (toLowerStr sec.title) kw)

/-- The body of the strengths `lines.forEach` loop (no index; the item test
here is `/^[-*•]|\d+\./`, without the trailing `\s`). -/
def strengthOfLine (line : Str) : Option Finding :=
  let cleanLine := trimWs line
  if (headBullet cleanLine || hasNumDot cleanLine) ∧ cleanLine.length > 15 then
    let text := trimWs (stripItemMark cleanLine)
    if text.length > 10 then
      let tss := extractTimestamps text
      some { title := extractTitle text
           , description := text
           , severity := .low
           , category := inferCategory text
           , instanceCount := if tss.length = 0 then 1 else tss.length
           , confidence := .high
           , timestamps := tss
           , counterEvidence := none }
    else none
  else none

def collectStrengths (sections : List ReportSection) : List Finding :=
  (sections.filter isStrengthSection).flatMap
    (fun sec => (splitLines sec.content).filterMap strengthOfLine)

/-- Source `extractStrengths`: collect, deduplicate — and, unlike
`extractFindings`, no chronological sort.  `rawContent` is unused. -/
def extractStrengths (sections : List ReportSection) (rawContent : Str) : List Finding :=
  deduplicateFindings (collectStrengths sections)

-- ===========================================================================
-- DECISION TREE EXTRACTION  (source: extractDecisionTree)
-- ===========================================================================

structure DecisionNode where
  trigger : Str
  response : Str
  timestamp : Option Timestamp
deriving DecidableEq

/-- The tail `\s+THEN\s+(.+)` tried at a candidate capture end: at least one
whitespace character (greedy; "THEN" must start right after the run), the
literal, then greedy whitespace and a nonempty rest-of-line capture (when
only whitespace remains, the engine gives one whitespace character back to
`.+`). -/
def ifThenTail (s : Str) : Option Str :=
  let w := (s.takeWhile isWsChar).length
  if w = 0 then none
  else
    match dropCI "then".data (s.drop w) with
    | some rest =>
      let w2 := (rest.takeWhile isWsChar).length
      if w2 = 0 then none
      else if rest.length > w2 then some (rest.drop w2)
      else if w2 ≥ 2 then some (rest.drop (w2 - 1))
      else none
    | none => none

/-- The lazy capture `(.+?)`: grow from one character until
`\s+THEN\s+(.+)` matches at its end. -/
def splitCapture (acc : Str) : Str → Option (Str × Str)
  | [] => none
  | c :: rs =>
    match ifThenTail rs with
    | some resp => some (acc ++ [c], resp)
    | none => splitCapture (acc ++ [c]) rs

/-- Optional prefix `(?:[-*•]|\d+\.)?` at a position: the suffixes to try, in
the engine's order (with the prefix first, then without). -/
def itemMarkOpts (s : Str) : List Str :=
  match s with
  | c :: rest =>
    if c = '-' ∨ c = '*' ∨ c = '•' then [rest, c :: rest]
    else if numDotHere (c :: rest) then [((c :: rest).dropWhile Char.isDigit).tail, c :: rest]
    else [c :: rest]
  | [] => [[]]

/-- One position of `/(?:[-*•]|\d+\.)?\s*IF\s+(.+?)\s+THEN\s+(.+)/i`;
`\s*` before `IF` is forced (a shorter run would put a whitespace character
where the literal must start). -/
def matchIfThenAt (s : Str) : Option (Str × Str) :=
  (itemMarkOpts s).findSome? fun s1 =>
    match dropCI "if".data (s1.dropWhile isWsChar) with
    | some s3 =>
      let w := (s3.takeWhile isWsChar).length
      if w = 0 then none else splitCapture [] (s3.drop w)
    | none => none

def matchIfThen : Str → Option (Str × Str)
  | [] => none
  | c :: rest =>
    match matchIfThenAt (c :: rest) with
    | some r => some r
    | none => matchIfThen rest

def isTreeSection (sec : ReportSection) : Bool :=
  hasSubstr (toLowerStr sec.title) "decision".data ||
    hasSubstr (toLowerStr sec.title) "counter logic".data ||
    hasSubstr (toLowerStr sec.title) "tree".data

/-- Source `extractDecisionTree`. -/
def extractDecisionTree (sections : List ReportSection) : List DecisionNode :=
  (sections.filter isTreeSection).flatMap fun sec =>
    (splitLines sec.content).filterMap fun line =>
      match matchIfThen line with
      | some (trig, resp) =>
        some { trigger := trimWs (removeBoldMarks trig)
             , response := trimWs resp
             , timestamp := (extractTimestamps line).head? }
      | none => none

-- ===========================================================================
-- OVERALL ASSESSMENT EXTRACTION  (source: extractOverallAssessment)
-- ===========================================================================

structure OverallAssessment where
  level : Str
  archetype : Str
  summary : Str
deriving DecidableEq

def defaultAssessment : OverallAssessment :=
  ⟨"Unknown".data, "Unknown".data, "No assessment available.".data⟩

/-- Suffixes (with consumed counts) reachable by `\*?\*?`, in the engine's
backtracking order (most stars first). -/
def starOpts : Str → List (Nat × Str)
  | '*' :: '*' :: rest => [(2, rest), (1, '*' :: rest), (0, '*' :: '*' :: rest)]
  | '*' :: rest => [(1, rest), (0, '*' :: rest)]
  | s => [(0, s)]

/-- Suffixes reachable by the greedy `[:\s]*`, longest first. -/
def colonWsOpts (s : Str) : List (Nat × Str) :=
  let w := (s.takeWhile (fun c => c = ':' ∨ isWsChar c)).length
  (List.range (w + 1)).map (fun j => (w - j, s.drop (w - j)))

/-- The capture `([^*\n]+)` (greedy maximal) optionally followed by the
trailing `\*?\*?` of the replace patterns; returns (consumed, capture). -/
def bodyCapture (withTrail : Bool) (s : Str) : Option (Nat × Str) :=
  let cap := s.takeWhile (fun c => ¬ (c = '*' ∨ c = '\n'))
  if cap.length = 0 then none
  else
    let extra := if withTrail then ((starOpts (s.drop cap.length)).headD (0, [])).1 else 0
    some (cap.length + extra, cap)

/-- `\*?\*?[:\s]*\*?\*?([^*\n]+)` (and, for the replace patterns, a trailing
`\*?\*?`): the first success in the engine's backtracking order. -/
def afterLabelMatch (withTrail : Bool) (s : Str) : Option (Nat × Str) :=
  ((starOpts s).flatMap fun p1 =>
    (colonWsOpts p1.2).flatMap fun p2 =>
      (starOpts p2.2).flatMap fun p3 =>
        match bodyCapture withTrail p3.2 with
        | some q => [(p1.1 + p2.1 + p3.1 + q.1, q.2)]
        | none => []).head?

/-- Leading `\*?\*?` then a case-insensitive literal: with three or more
stars every backtracking choice leaves a '*' where the literal must start,
so the position fails; otherwise the whole star run is consumed. -/
def labelLitAt (lit : Str) (s : Str) : Option (Nat × Str) :=
  let k := (s.takeWhile (fun c => c = '*')).length
  if k ≤ 2 then
    match dropCI lit (s.drop k) with
    | some rest => some (k + lit.length, rest)
    | none => none
  else none

/-- One position of `/\*?\*?Archetype\*?\*?[:\s]*\*?\*?([^*\n]+)/i`
(capture only). -/
def archAt (s : Str) : Option Str :=
  match labelLitAt "archetype".data s with
  | some (_, rest) => (afterLabelMatch false rest).map (fun q => q.2)
  | none => none

/-- One position of the archetype replace pattern (with trailing `\*?\*?`),
returning the full match length. -/
def archReplAt (s : Str) : Option Nat :=
  match labelLitAt "archetype".data s with
  | some (n, rest) => (afterLabelMatch true rest).map (fun q => n + q.1)
  | none => none

/-- `(?:Current\s+)?Level` case-insensitively at a position ("current" and
"level" start with different letters, so the optional part is forced). -/
def levelLitPart (s : Str) : Option (Nat × Str) :=
  match dropCI "current".data s with
  | some r1 =>
    let w := (r1.takeWhile isWsChar).length
    if w ≥ 1 then
      match dropCI "level".data (r1.drop w) with
      | some r2 => some (7 + w + 5, r2)
      | none => (dropCI "level".data s).map (fun r => (5, r))
    else (dropCI "level".data s).map (fun r => (5, r))
  | none => (dropCI "level".data s).map (fun r => (5, r))

def levelLitAt (s : Str) : Option (Nat × Str) :=
  let k := (s.takeWhile (fun c => c = '*')).length
  if k ≤ 2 then (levelLitPart (s.drop k)).map (fun p => (k + p.1, p.2))
  else none

/-- One position of `/\*?\*?(?:Current\s+)?Level\*?\*?[:\s]*\*?\*?([^*\n]+)/i`
(capture only). -/
def levelAt (s : Str) : Option Str :=
  match levelLitAt s with
  | some (_, rest) => (afterLabelMatch false rest).map (fun q => q.2)
  | none => none

/-- One position of the level replace pattern (full match length). -/
def levelReplAt (s : Str) : Option Nat :=
  match levelLitAt s with
  | some (n, rest) => (afterLabelMatch true rest).map (fun q => n + q.1)
  | none => none

/-- JS `content.match(re)` for a capture matcher: leftmost position wins. -/
def findCaptureScan (matchAt : Str → Option Str) : Str → Option Str
  | [] => matchAt []
  | c :: rest =>
    match matchAt (c :: rest) with
    | some cap => some cap
    | none => findCaptureScan matchAt rest

/-- JS `content.replace(re, '')` with the `g` flag: remove each leftmost
match and resume after it.  `fuel` (the string length) makes the recursion
structural; every step consumes at least one character. -/
def stripMatchesFuel (matchLenAt : Str → Option Nat) : Nat → Str → Str
  | 0, s => s
  | _ + 1, [] => []
  | fuel + 1, c :: rest =>
    match matchLenAt (c :: rest) with
    | some n =>
      if n = 0 then c :: stripMatchesFuel matchLenAt fuel rest
      else stripMatchesFuel matchLenAt fuel (rest.drop (n - 1))
    | none => c :: stripMatchesFuel matchLenAt fuel rest

/-- JS `str.lastIndexOf(ch, bound)` (−1 when absent; the bound is
inclusive). -/
def lastIdxAux (ch : Char) (bound : Nat) : Str → Nat → Int → Int
  | [], _, acc => acc
  | c :: rest, i, acc =>
    lastIdxAux ch bound rest (i + 1) (if c = ch ∧ i ≤ bound then (i : Int) else acc)

def lastIdxLe (s : Str) (ch : Char) (bound : Nat) : Int := lastIdxAux ch bound s 0 (-1)

/-- The sentence-boundary truncation block of `extractOverallAssessment`. -/
def truncateSummary (s : Str) : Str :=
  if s.length > 1500 then
    let lastPeriod := lastIdxLe s '.' 1500
    let lastQuestion := lastIdxLe s '?' 1500
    let lastExclaim := lastIdxLe s '!' 1500
    let bestCutoff := max (max lastPeriod lastQuestion) lastExclaim
    if bestCutoff > 500 then s.take (bestCutoff.toNat + 1) else s.take 1500
  else s

/-- The body of `extractOverallAssessment` once the fallback content is
chosen: `content` feeds the archetype/level field extraction, `secContent`
is `assessmentSection?.content` and gates the summary block. -/
def assembleAssessment (content : Str) (secContent : Option Str) : OverallAssessment :=
  let archetype :=
    match findCaptureScan archAt content with
    | some cap => (trimWs (removeBoldMarks cap)).take 100
    | none => "Unknown".data
  let level :=
    match findCaptureScan levelAt content with
    | some cap => (trimWs (removeBoldMarks cap)).take 100
    | none => "Unknown".data
  let summary :=
    match secContent with
    | some sc =>
      if sc = [] then "No assessment available.".data
      else
        let s1 := stripMatchesFuel archReplAt sc.length sc
        let s2 := stripMatchesFuel levelReplAt s1.length s1
        let s3 := trimWs (removeBoldMarks s2)
        let s4 := truncateSummary s3
        if s4 = [] then "No assessment available.".data else s4
    | none => "No assessment available.".data
  ⟨level, archetype, summary⟩

def isAssessmentSection (sec : ReportSection) : Bool :=
  hasSubstr (toLowerStr sec.title) "overall".data ||
    hasSubstr (toLowerStr sec.title) "assessment".data

/-- Source `extractOverallAssessment`. -/
def extractOverallAssessment (sections : List ReportSection) (rawContent : Str) :
    OverallAssessment :=
  match sections.find? isAssessmentSection with
  | none => if rawContent = [] then defaultAssessment else assembleAssessment rawContent none
  | some sec =>
    assembleAssessment (if sec.content = [] then rawContent else sec.content) (some sec.content)

-- ===========================================================================
-- REPORT ASSEMBLY  (source: parseSelfScoutReport, validateReport)
-- ===========================================================================

inductive AnalysisType
  | full | quick | progress
deriving DecidableEq

structure ReportMetadata where
  totalFindings : Nat
  criticalCount : Nat
  highCount : Nat
  mediumCount : Nat
  lowCount : Nat
  validationWarnings : List Str
deriving DecidableEq

/-- The SelfScoutReport aggregate.  Omitted relative to the source record:
`id` (`crypto.randomUUID()`) and `generatedAt` (`new Date()`), both
nondeterministic, and the `priorityImprovements` / `opponentGamePlan`
fields, whose extractors no verified claim touches. -/
structure SelfScoutReport where
  analysisType : AnalysisType
  overallAssessment : OverallAssessment
  findings : List Finding
  strengths : List Finding
  sections : List ReportSection
  timestamps : List Timestamp
  metadata : ReportMetadata
  rawContent : Str
deriving DecidableEq

def noStrengthsWarning : Str := "No strengths were identified in this analysis.".data

/-- Source `validateReport`. -/
def validateReport (findings strengths : List Finding) : List Str :=
  let lowEvidence := findings.filter
    (fun f => decide (f.instanceCount < 2) && decide (f.confidence ≠ Confidence.inconclusive))
  (if lowEvidence.length > 0 then
      [natToStr lowEvidence.length ++ " finding(s) have limited timestamp evidence.".data]
    else []) ++
  (if strengths.length = 0 then [noStrengthsWarning] else []) ++
  (if (findings.filter (fun f => decide (f.severity = Severity.critical))).length > 5 then
      ["High number of critical findings - review may be over-sensitive.".data]
    else [])

/-- Source `parseSelfScoutReport` (the global timestamp list is sorted by
the stable `Array.sort` on `a.seconds - b.seconds`). -/
def parseSelfScoutReport (rawContent : Str) (analysisType : AnalysisType) : SelfScoutReport :=
  let sections := parseReportSections rawContent
  let allTimestamps :=
    List.insertionSort (fun a b => a.seconds ≤ b.seconds) (extractTimestamps rawContent)
  let findings := extractFindings sections rawContent
  let strengths := extractStrengths sections rawContent
  let overallAssessment := extractOverallAssessment sections rawContent
  let metadata : ReportMetadata :=
    { totalFindings := findings.length
    , criticalCount := (findings.filter (fun f => decide (f.severity = Severity.critical))).length
    , highCount := (findings.filter (fun f => decide (f.severity = Severity.high))).length
    , mediumCount := (findings.filter (fun f => decide (f.severity = Severity.medium))).length
    , lowCount := (findings.filter (fun f => decide (f.severity = Severity.low))).length
    , validationWarnings := validateReport findings strengths }
  { analysisType := analysisType
  , overallAssessment := overallAssessment
  , findings := findings
  , strengths := strengths
  , sections := sections
  , timestamps := allTimestamps
  , metadata := metadata
  , rawContent := rawContent }

-- ===========================================================================
-- CLAIM C1: extractTimestamps finds every bracketed [M:SS] token
-- ===========================================================================

/-- The bracketed token `[M:SS]` the claim speaks about. -/
def tsToken (M S : Str) : Str := '[' :: (M ++ ':' :: (S ++ [']']))

theorem parseOneTwoDigits_spec (s : Str) (v n : Nat) (rest : Str)
    (h : parseOneTwoDigits s = some (v, n, rest)) :
    1 ≤ n ∧ s.drop n = rest ∧ ∀ c ∈ s.take n, c.isDigit = true := by
  match s with
  | [] => simp [parseOneTwoDigits] at h
  | [c1] =>
    by_cases h1 : c1.isDigit
    · simp [parseOneTwoDigits, h1] at h
      obtain ⟨hv, hn, hr⟩ := h
      subst hn hr
      simp [h1]
    · simp [parseOneTwoDigits, h1] at h
  | c1 :: c2 :: tl =>
    by_cases h1 : c1.isDigit
    · by_cases h2 : c2.isDigit
      · simp [parseOneTwoDigits, h1, h2] at h
        obtain ⟨hv, hn, hr⟩ := h
        subst hn hr
        simp [h1, h2]
      · simp [parseOneTwoDigits, h1, h2] at h
        obtain ⟨hv, hn, hr⟩ := h
        subst hn hr
        simp [h1]
    · simp [parseOneTwoDigits, h1] at h

theorem parseTimeCore_spec (s : Str) (m sec len : Nat) (rest : Str)
    (h : parseTimeCore s = some (m, sec, len, rest)) :
    4 ≤ len ∧ s.drop len = rest ∧ ∀ c ∈ s.take len, (c.isDigit = true ∨ c = ':') := by
  unfold parseTimeCore at h
  rcases hpd : parseOneTwoDigits s with _ | ⟨v, n, rest1⟩
  · rw [hpd] at h; simp at h
  · rw [hpd] at h
    obtain ⟨hn1, hdrop, htake⟩ := parseOneTwoDigits_spec s v n rest1 hpd
    match hr1 : rest1 with
    | [] => simp at h
    | [c1] =>
      by_cases hc : c1 = ':' <;> simp [hc] at h
    | c1 :: c2 :: [] =>
      by_cases hc : c1 = ':' <;> simp [hc] at h
    | c1 :: c2 :: c3 :: tl =>
      by_cases hc : c1 = ':'
      · subst hc
        by_cases hd : c2.isDigit ∧ c3.isDigit
        · simp only [hd, if_true] at h
          simp at h
          obtain ⟨hm, hsec, hlen, hrest⟩ := h
          subst hlen hrest
          refine ⟨by omega, ?_, ?_⟩
          · have hdd : s.drop (n + 3) = (s.drop n).drop 3 := by
              rw [List.drop_drop]
            rw [hdd, hdrop]
            rfl
          · intro c hc
            rw [List.take_add] at hc
            rcases List.mem_append.mp hc with hin | hin
            · exact Or.inl (htake c hin)
            · rw [hdrop] at hin
              simp at hin
              rcases hin with rfl | rfl | rfl
              · exact Or.inr rfl
              · exact Or.inl hd.1
              · exact Or.inl hd.2
        · simp only [hd, if_false] at h
          exact absurd h (by simp)
      · simp [hc] at h

theorem notBracket_of_digit_colon {x : Char} (h : x.isDigit = true ∨ x = ':') : x ≠ '[' := by
  rcases h with h | h
  · intro he; subst he; simp [Char.isDigit] at h
  · subst h; decide

theorem isCloseBr_ne_bracket {x : Char} (h : isCloseBr x = true) : x ≠ '[' := by
  unfold isCloseBr at h
  simp at h
  rcases h with rfl | rfl <;> decide

theorem matchTsAt_spec (c0 : Char) (rest : Str) (m s len : Nat)
    (h : matchTsAt (c0 :: rest) = some (m, s, len)) :
    6 ≤ len ∧ ∀ x ∈ rest.take (len - 1), x ≠ '[' := by
  simp only [matchTsAt] at h
  split at h
  · split at h
    next m1 s1 len1 rest1 hpt =>
      obtain ⟨hlen1, hdrop1, htake1⟩ := parseTimeCore_spec rest m1 s1 len1 rest1 hpt
      match rest1, hpt, hdrop1, h with
      | [], hpt, hdrop1, h => simp at h
      | c2 :: rest2, hpt, hdrop1, h =>
        by_cases hdash : c2 = '-'
        · subst hdash
          simp only [reduceIte] at h
          split at h
          next m2 s2 len2 rest3 hpt2 =>
            obtain ⟨hlen2, hdrop2, htake2⟩ := parseTimeCore_spec rest2 m2 s2 len2 rest3 hpt2
            match rest3, hpt2, hdrop2, h with
            | [], hpt2, hdrop2, h => simp at h
            | c3 :: t3, hpt2, hdrop2, h =>
              by_cases hcl : isCloseBr c3 = true
              · simp only [hcl, if_true, Option.some.injEq, Prod.mk.injEq] at h
                obtain ⟨hm, hs, hlen⟩ := h
                subst hlen
                refine ⟨by omega, ?_⟩
                intro x hx
                have he1 : len1 + len2 + 3 - 1 = len1 + (len2 + 1 + 1) := by omega
                rw [he1, List.take_add] at hx
                rcases List.mem_append.mp hx with hin | hin
                · exact notBracket_of_digit_colon (htake1 x hin)
                · rw [hdrop1, List.take_succ_cons] at hin
                  rcases List.mem_cons.mp hin with rfl | hin2
                  · decide
                  · rw [List.take_add] at hin2
                    rcases List.mem_append.mp hin2 with hin3 | hin3
                    · exact notBracket_of_digit_colon (htake2 x hin3)
                    · rw [hdrop2] at hin3
                      simp at hin3
                      subst hin3
                      exact isCloseBr_ne_bracket hcl
              · simp [hcl] at h
          next => simp at h
        · simp only [hdash, reduceIte] at h
          by_cases hcl : isCloseBr c2 = true
          · simp only [hcl, if_true, Option.some.injEq, Prod.mk.injEq] at h
            obtain ⟨hm, hs, hlen⟩ := h
            subst hlen
            refine ⟨by omega, ?_⟩
            intro x hx
            have he1 : len1 + 2 - 1 = len1 + 1 := by omega
            rw [he1, List.take_add] at hx
            rcases List.mem_append.mp hx with hin | hin
            · exact notBracket_of_digit_colon (htake1 x hin)
            · rw [hdrop1] at hin
              simp at hin
              subst hin
              exact isCloseBr_ne_bracket hcl
          · simp [hcl] at h
    next => simp at h
  · simp at h

theorem matchTsAt_token (M S suf : Str)
    (hM : M.length = 1 ∨ M.length = 2) (hMd : ∀ c ∈ M, c.isDigit = true)
    (hS : S.length = 2) (hSd : ∀ c ∈ S, c.isDigit = true) :
    matchTsAt (tsToken M S ++ suf) = some (digitsToNat M, digitsToNat S, M.length + 5) := by
  obtain ⟨sc, sd, rfl⟩ : ∃ a b, S = [a, b] := List.length_eq_two.mp hS
  have hsc : sc.isDigit = true := hSd sc (by simp)
  have hsd : sd.isDigit = true := hSd sd (by simp)
  have hcolon : (':' : Char).isDigit = false := by decide
  have hbr : (']' : Char).isDigit = false := by decide
  rcases hM with h1 | h2
  · obtain ⟨a, rfl⟩ : ∃ a, M = [a] := List.length_eq_one.mp h1
    have ha : a.isDigit = true := hMd a (by simp)
    simp [tsToken, matchTsAt, parseTimeCore, parseOneTwoDigits, ha, hsc, hsd, hcolon,
      digitsToNat, isCloseBr, digitVal]
  · obtain ⟨a, b, rfl⟩ : ∃ a b, M = [a, b] := List.length_eq_two.mp h2
    have ha : a.isDigit = true := hMd a (by simp)
    have hb : b.isDigit = true := hMd b (by simp)
    simp [tsToken, matchTsAt, parseTimeCore, parseOneTwoDigits, ha, hb, hsc, hsd, hcolon,
      digitsToNat, isCloseBr, digitVal]

theorem scanTsFuel_finds (full M S : Str)
    (hM : M.length = 1 ∨ M.length = 2) (hMd : ∀ c ∈ M, c.isDigit = true)
    (hS : S.length = 2) (hSd : ∀ c ∈ S, c.isDigit = true) :
    ∀ (fuel : Nat) (cs : Str) (i : Nat) (pre suf : Str),
      cs.length ≤ fuel → cs = pre ++ tsToken M S ++ suf →
      ∃ ts ∈ scanTsFuel full fuel cs i,
        ts.seconds = digitsToNat M * 60 + digitsToNat S ∧
        ts.time = natToStr (digitsToNat M) ++ ':' :: pad2 (digitsToNat S) := by
  intro fuel
  induction fuel with
  | zero =>
    intro cs i pre suf hlen hcs
    exfalso
    subst hcs
    simp [tsToken, List.length_append] at hlen
  | succ fuel ih =>
    intro cs i pre suf hlen hcs
    match pre, hcs with
    | [], hcs =>
      have hcs' : cs = '[' :: (M ++ ':' :: (S ++ [']']) ++ suf) := by
        simpa [tsToken] using hcs
      subst hcs'
      have htok : matchTsAt ('[' :: (M ++ ':' :: (S ++ [']']) ++ suf)) =
          some (digitsToNat M, digitsToNat S, M.length + 5) := by
        have := matchTsAt_token M S suf hM hMd hS hSd
        simpa [tsToken] using this
      refine ⟨mkTs full i (digitsToNat M) (digitsToNat S), ?_, by simp [mkTs], by simp [mkTs]⟩
      simp only [scanTsFuel, htok]
      exact List.mem_cons_self _ _
    | c :: pre', hcs =>
      have hrest : cs = c :: (pre' ++ tsToken M S ++ suf) := by simp [hcs]
      subst hrest
      rcases hm : matchTsAt (c :: (pre' ++ tsToken M S ++ suf)) with _ | ⟨m0, s0, len⟩
      · simp only [scanTsFuel, hm]
        exact ih (pre' ++ tsToken M S ++ suf) (i + 1) pre' suf (by simpa using hlen) rfl
      · obtain ⟨hlen6, hnobr⟩ :=
          matchTsAt_spec c (pre' ++ tsToken M S ++ suf) m0 s0 len hm
        have hlenle : len - 1 ≤ pre'.length := by
          by_contra hgt
          push_neg at hgt
          have hmem : '[' ∈ List.take (len - 1) (pre' ++ tsToken M S ++ suf) := by
            rw [List.take_append_eq_append_take]
            refine List.mem_append.mpr (Or.inl ?_)
            rw [List.take_append_eq_append_take]
            refine List.mem_append.mpr (Or.inr ?_)
            have hk1 : 1 ≤ len - 1 - pre'.length := by omega
            obtain ⟨k, hk⟩ := Nat.exists_eq_add_of_le hk1
            rw [hk, Nat.add_comm 1 k, tsToken, List.take_succ_cons]
            exact List.mem_cons_self _ _
          exact hnobr '[' hmem rfl
        have hdropeq :
            List.drop (len - 1) (pre' ++ tsToken M S ++ suf) =
              List.drop (len - 1) pre' ++ tsToken M S ++ suf := by
          rw [List.append_assoc, List.drop_append_eq_append_drop,
            Nat.sub_eq_zero_of_le hlenle, List.drop_zero, List.append_assoc]
        simp only [scanTsFuel, hm]
        have hlen' : (List.drop (len - 1) (pre' ++ tsToken M S ++ suf)).length ≤ fuel := by
          rw [List.length_drop]
          have hfl := hlen
          simp only [List.length_cons] at hfl
          omega
        obtain ⟨ts, hmem, hts⟩ :=
          ih (List.drop (len - 1) (pre' ++ tsToken M S ++ suf)) (i + len)
            (List.drop (len - 1) pre') suf hlen' hdropeq
        exact ⟨ts, List.mem_cons_of_mem _ hmem, hts⟩

/-- C1: for every input text containing a bracketed time token `[M:SS]`
(minutes 1-2 digits, seconds exactly 2 digits), `extractTimestamps` returns
a Timestamp for that occurrence whose `seconds` equals `M*60+SS` and whose
`time` is `"M:SS"` with the minute rendered without zero-padding and the
seconds zero-padded to two digits. -/
theorem c1_timestamp_token (pre suf M S : Str)
    (hM : M.length = 1 ∨ M.length = 2) (hMd : ∀ c ∈ M, c.isDigit = true)
    (hS : S.length = 2) (hSd : ∀ c ∈ S, c.isDigit = true) :
    ∃ ts ∈ extractTimestamps (pre ++ tsToken M S ++ suf),
      ts.seconds = digitsToNat M * 60 + digitsToNat S ∧
      ts.time = natToStr (digitsToNat M) ++ ':' :: pad2 (digitsToNat S) := by
  have hne : pre ++ tsToken M S ++ suf ≠ [] := by simp [tsToken]
  unfold extractTimestamps
  rw [if_neg hne]
  exact scanTsFuel_finds (pre ++ tsToken M S ++ suf) M S hM hMd hS hSd
    (pre ++ tsToken M S ++ suf).length (pre ++ tsToken M S ++ suf) 0 pre suf le_rfl rfl

theorem c1_timestamp_token_witness :
    ∃ ts ∈ extractTimestamps ("watch ".data ++ tsToken ['1'] ['0', '7'] ++ " end".data),
      ts.seconds = digitsToNat ['1'] * 60 + digitsToNat ['0', '7'] ∧
      ts.time = natToStr (digitsToNat ['1']) ++ ':' :: pad2 (digitsToNat ['0', '7']) :=
  c1_timestamp_token "watch ".data " end".data ['1'] ['0', '7']
    (Or.inl (by decide)) (by decide) (by decide) (by decide)

-- ===========================================================================
-- CLAIM C2: parseReportSections section count and implicit intro section
-- ===========================================================================

def isHeaderLine (l : Str) : Bool := (headerTitle (trimWs l)).isSome

def isHashHeaderLine (l : Str) : Bool := (hashHeadingTitle (trimWs l)).isSome

def preambleFlag : List Str → Bool
  | [] => false
  | l :: ls => if trimWs l = [] then preambleFlag ls else !(isHeaderLine l)

def secCount (st : ParseState) : Nat :=
  st.sections.length + (match st.current with | some _ => 1 | none => 0)

def listOut (st : ParseState) : List ReportSection :=
  match st.current with
  | some cur => st.sections ++ [finalizeSection cur]
  | none => st.sections

theorem length_listOut (st : ParseState) : (listOut st).length = secCount st := by
  unfold listOut secCount
  match st with
  | ⟨secs, some cur⟩ => simp
  | ⟨secs, none⟩ => simp

theorem hashHeader_isHeader (l : Str) (h : isHashHeaderLine l = true) : isHeaderLine l = true := by
  unfold isHashHeaderLine at h
  unfold isHeaderLine headerTitle
  rcases hh : hashHeadingTitle (trimWs l) with _ | raw
  · rw [hh] at h; simp at h
  · simp

theorem secCount_foldl_some (ls : List Str) :
    ∀ (s0 : List ReportSection) (c : ReportSection),
      secCount (ls.foldl processLine ⟨s0, some c⟩) =
        s0.length + 1 + ls.countP isHeaderLine := by
  induction ls with
  | nil => intro s0 c; simp [secCount]
  | cons l ls ih =>
    intro s0 c
    rw [List.foldl_cons, List.countP_cons]
    by_cases hb : trimWs l = []
    · have hnh : isHeaderLine l = false := by
        unfold isHeaderLine
        rw [hb]
        decide
      rw [processLine]
      simp only [hb, if_true, reduceIte]
      rw [ih]
      simp [hnh]
    · rcases hht : headerTitle (trimWs l) with _ | title
      · have hnh : isHeaderLine l = false := by unfold isHeaderLine; rw [hht]; rfl
        rw [processLine]
        simp only [hb, reduceIte, hht]
        rw [ih]
        simp [hnh]
      · have hyh : isHeaderLine l = true := by unfold isHeaderLine; rw [hht]; rfl
        rw [processLine]
        simp only [hb, reduceIte, hht]
        rw [ih]
        simp [hyh]
        omega

theorem secCount_foldl_none (ls : List Str) :
    ∀ (s0 : List ReportSection),
      secCount (ls.foldl processLine ⟨s0, none⟩) =
        s0.length + ls.countP isHeaderLine + (if preambleFlag ls then 1 else 0) := by
  induction ls with
  | nil => intro s0; simp [secCount, preambleFlag]
  | cons l ls ih =>
    intro s0
    rw [List.foldl_cons, List.countP_cons]
    by_cases hb : trimWs l = []
    · have hnh : isHeaderLine l = false := by
        unfold isHeaderLine; rw [hb]; decide
      rw [processLine]
      simp only [hb, reduceIte]
      rw [ih]
      simp [hnh, preambleFlag, hb]
    · rcases hht : headerTitle (trimWs l) with _ | title
      · have hnh : isHeaderLine l = false := by unfold isHeaderLine; rw [hht]; rfl
        rw [processLine]
        simp only [hb, reduceIte, hht]
        rw [secCount_foldl_some]
        simp [preambleFlag, hb, hnh]
        omega
      · have hyh : isHeaderLine l = true := by unfold isHeaderLine; rw [hht]; rfl
        rw [processLine]
        simp only [hb, reduceIte, hht]
        rw [secCount_foldl_some]
        simp [preambleFlag, hb, hyh]
        omega

theorem listOut_foldl_some (ls : List Str) :
    ∀ (s0 : List ReportSection) (c : ReportSection),
      ∃ sec rest, listOut (ls.foldl processLine ⟨s0, some c⟩) = s0 ++ sec :: rest ∧
        sec.id = c.id ∧ sec.title = c.title := by
  induction ls with
  | nil =>
    intro s0 c
    exact ⟨finalizeSection c, [], rfl, rfl, rfl⟩
  | cons l ls ih =>
    intro s0 c
    rw [List.foldl_cons]
    by_cases hb : trimWs l = []
    · rw [processLine]
      simp only [hb, reduceIte]
      exact ih s0 { c with content := c.content ++ ['\n'] }
    · rcases hht : headerTitle (trimWs l) with _ | title
      · rw [processLine]
        simp only [hb, reduceIte, hht]
        exact ih s0 { c with content := c.content ++ l ++ ['\n'] }
      · rw [processLine]
        simp only [hb, reduceIte, hht]
        obtain ⟨sec, rest, hout, hid, htitle⟩ :=
          ih (s0 ++ [finalizeSection c])
            ⟨generateSectionId title, title, [], []⟩
        refine ⟨finalizeSection c, sec :: rest, ?_, rfl, rfl⟩
        rw [hout, List.append_assoc]
        rfl

theorem listOut_foldl_intro (ls : List Str) (hp : preambleFlag ls = true) :
    ∃ sec rest, listOut (ls.foldl processLine ⟨[], none⟩) = sec :: rest ∧
      sec.id = "intro".data ∧ sec.title = "Introduction".data := by
  induction ls with
  | nil => simp [preambleFlag] at hp
  | cons l ls ih =>
    rw [List.foldl_cons]
    by_cases hb : trimWs l = []
    · rw [processLine]
      simp only [hb, reduceIte]
      apply ih
      unfold preambleFlag at hp
      rw [if_pos hb] at hp
      exact hp
    · have hnh : isHeaderLine l = false := by
        unfold preambleFlag at hp
        rw [if_neg hb] at hp
        simp at hp
        exact hp
      have hht : headerTitle (trimWs l) = none := by
        unfold isHeaderLine at hnh
        rcases hx : headerTitle (trimWs l) with _ | t
        · rfl
        · rw [hx] at hnh; simp at hnh
      rw [processLine]
      simp only [hb, reduceIte, hht]
      obtain ⟨sec, rest, hout, hid, htitle⟩ :=
        listOut_foldl_some ls [] ⟨"intro".data, "Introduction".data, l ++ ['\n'], []⟩
      exact ⟨sec, rest, by simpa using hout, hid, htitle⟩

/-- C2: on input whose lines contain exactly N hash headings ('#'–'###'
followed by whitespace and text) and no other recognized heading,
`parseReportSections` returns N sections plus one leading implicit
"intro"/"Introduction" section exactly when a non-blank line precedes the
first heading; the final open section is always pushed (it is included in
the count). -/
theorem c2_section_count (md : Str) (N : Nat)
    (h1 : (splitLines md).countP isHashHeaderLine = N)
    (h2 : ∀ l ∈ splitLines md, isHeaderLine l = true → isHashHeaderLine l = true) :
    (parseReportSections md).length =
        N + (if preambleFlag (splitLines md) then 1 else 0) ∧
      (preambleFlag (splitLines md) = true →
        ∃ sec rest, parseReportSections md = sec :: rest ∧
          sec.id = "intro".data ∧ sec.title = "Introduction".data) := by
  have hcount : (splitLines md).countP isHeaderLine = N := by
    rw [← h1]
    apply List.countP_congr
    intro l hl
    rcases hx : isHeaderLine l with _ | _
    · rcases hy : isHashHeaderLine l with _ | _
      · simp
      · rw [hashHeader_isHeader l hy] at hx
        simp at hx
    · rw [h2 l hl hx]
  by_cases hmd : md = []
  · subst hmd
    constructor
    · simp only [parseReportSections, reduceIte]
      have : N = 0 := by
        rw [← h1]; decide
      rw [this]
      have : preambleFlag (splitLines []) = false := by decide
      rw [this]
      rfl
    · intro hp
      have : preambleFlag (splitLines []) = false := by decide
      rw [this] at hp
      exact absurd hp (by simp)
  · have hout : parseReportSections md = listOut ((splitLines md).foldl processLine ⟨[], none⟩) := by
      unfold parseReportSections listOut
      rw [if_neg hmd]
    constructor
    · rw [hout, length_listOut, secCount_foldl_none, hcount]
      simp
    · intro hp
      rw [hout]
      exact listOut_foldl_intro (splitLines md) hp

theorem c2_section_count_witness :
    (parseReportSections "hello there\n## FIRST\nbody text\n# SECOND\nmore".data).length =
        2 + (if preambleFlag (splitLines "hello there\n## FIRST\nbody text\n# SECOND\nmore".data)
              then 1 else 0) ∧
      (preambleFlag (splitLines "hello there\n## FIRST\nbody text\n# SECOND\nmore".data) = true →
        ∃ sec rest,
          parseReportSections "hello there\n## FIRST\nbody text\n# SECOND\nmore".data =
              sec :: rest ∧
            sec.id = "intro".data ∧ sec.title = "Introduction".data) :=
  c2_section_count "hello there\n## FIRST\nbody text\n# SECOND\nmore".data 2
    (by decide) (by decide)

-- ===========================================================================
-- CLAIMS C3, C4, C5, C7, C8, C9, C10
-- ===========================================================================

-- C5 ------------------------------------------------------------------------

/-- Reference formulation of the claimed deduplication behaviour: keep each
item and drop every later item whose key collides with it. -/
def keepFirstByKey : List Finding → List Finding
  | [] => []
  | f :: rest => f :: keepFirstByKey (rest.filter (fun g => decide (dedupKey g ≠ dedupKey f)))
termination_by l => l.length
decreasing_by
  simp only [List.length_cons]
  exact Nat.lt_succ_of_le (List.length_filter_le _ _)

theorem dedupAux_eq_keepFirst (fs : List Finding) :
    ∀ seen : List Str, dedupAux fs seen =
      keepFirstByKey (fs.filter (fun g => decide (dedupKey g ∉ seen))) := by
  induction fs with
  | nil => intro seen; simp [dedupAux, keepFirstByKey]
  | cons f rest ih =>
    intro seen
    by_cases hmem : dedupKey f ∈ seen
    · rw [dedupAux, if_pos hmem, List.filter_cons]
      rw [decide_eq_false (by simpa using hmem)]
      simp only [Bool.false_eq_true, reduceIte]
      exact ih seen
    · rw [dedupAux, if_neg hmem, List.filter_cons]
      rw [decide_eq_true (by simpa using hmem)]
      simp only [reduceIte]
      rw [keepFirstByKey, List.filter_filter]
      rw [ih (dedupKey f :: seen)]
      have hfe : List.filter (fun g => decide (dedupKey g ∉ dedupKey f :: seen)) rest =
          List.filter (fun a => decide (dedupKey a ≠ dedupKey f) && decide (dedupKey a ∉ seen))
            rest := by
        apply List.filter_congr
        intro g _
        by_cases hg1 : dedupKey g = dedupKey f
        · simp [hg1]
        · by_cases hg2 : dedupKey g ∈ seen
          · simp [hg1, hg2]
          · simp [hg1, hg2]
      rw [hfe]

/-- C5: `deduplicateFindings` keeps exactly the first-encountered item of
each lowercased 30-character title key and drops every later colliding
item, and `extractFindings` applies this deduplication before the
chronological sort. -/
theorem c5_dedup_first_kept :
    (∀ fs, deduplicateFindings fs = keepFirstByKey fs) ∧
    (∀ sections rawContent, extractFindings sections rawContent =
      List.insertionSort (fun a b => keyLe a b = true)
        (deduplicateFindings (collectFindings sections))) := by
  constructor
  · intro fs
    have h := dedupAux_eq_keepFirst fs []
    have hfix : fs.filter (fun g => decide (dedupKey g ∉ ([] : List Str))) = fs := by
      apply List.filter_eq_self.mpr
      intro g _
      simp
    rw [hfix] at h
    exact h
  · intro sections rawContent
    rfl

-- C4 ------------------------------------------------------------------------

theorem keyLe_total (a b : Finding) : keyLe a b = true ∨ keyLe b a = true := by
  unfold keyLe
  rcases earliestSeconds a with _ | x <;> rcases earliestSeconds b with _ | y <;> simp
  exact Nat.le_total x y

theorem keyLe_trans (a b c : Finding)
    (hab : keyLe a b = true) (hbc : keyLe b c = true) : keyLe a c = true := by
  unfold keyLe at hab hbc ⊢
  cases hA : earliestSeconds a <;> cases hB : earliestSeconds b <;>
    cases hC : earliestSeconds c <;>
    simp only [hA, hB, hC] at hab hbc ⊢ <;>
    simp_all <;> omega

instance : IsTotal Finding (fun a b => keyLe a b = true) := ⟨keyLe_total⟩

instance : IsTrans Finding (fun a b => keyLe a b = true) := ⟨keyLe_trans⟩

/-- C4 counterexample: a strengths section whose two items carry timestamps
at 60s then 10s; `extractStrengths` returns them in source order, which is
not sorted by earliest timestamp. -/
def c4secs : List ReportSection :=
  [⟨"strengths".data, "STRENGTHS".data,
    "- **Heavy right hand power** lands [1:00] often\n- **Fast jab speed** shown [0:10] clearly".data,
    []⟩]

theorem c4_counterexample :
    (extractStrengths c4secs []).map earliestSeconds = [some 60, some 10] ∧
    ¬ List.Sorted (fun a b => keyLe a b = true) (extractStrengths c4secs []) := by
  constructor
  · decide
  · intro hs
    have hp : List.Pairwise (fun a b => keyLe a b = true) (extractStrengths c4secs []) := hs
    exact absurd hp (by decide)

/-- C4 amended: `extractFindings` is sorted ascending by earliest timestamp
(items without timestamps compare as infinitely late, hence sort last);
`extractStrengths` performs no such sort — it returns the deduplicated
items in source order. -/
theorem c4_amended_sorting :
    (∀ sections rawContent,
      List.Sorted (fun a b => keyLe a b = true) (extractFindings sections rawContent)) ∧
    (∀ sections rawContent,
      extractStrengths sections rawContent = deduplicateFindings (collectStrengths sections)) :=
  ⟨fun _ _ => List.sorted_insertionSort _ _, fun _ _ => rfl⟩

-- C7 ------------------------------------------------------------------------

/-- No severity keyword occurs in the lowercased `sectionTitle + " " + text`. -/
def sevKeywordFree (sectionTitle text : Str) : Bool :=
  let lower := toLowerStr (sectionTitle ++ ' ' :: text)
  !(containsAnyOf lower sevCriticalKws || containsAnyOf lower sevHighKws ||
      containsAnyOf lower sevLowKws)

/-- C7 amended: when no severity keyword matches, the fallback severity is
determined by the index `inferSeverity` receives — which, at its call site
in `extractFindingsFromSection`, is the LINE index within the section
content (counting non-item lines), not the position among extracted items:
index ≤ 2 gives high, index ≤ 5 medium, later low. -/
theorem c7_amended_position_fallback (sectionTitle text : Str) (index : Nat)
    (h : sevKeywordFree sectionTitle text = true) :
    inferSeverity sectionTitle text index =
      (if index ≤ 2 then Severity.high else if index ≤ 5 then Severity.medium
       else Severity.low) := by
  unfold sevKeywordFree at h
  simp only [Bool.not_eq_true', Bool.or_eq_false_iff] at h
  obtain ⟨⟨hc, hh⟩, hl⟩ := h
  unfold inferSeverity
  simp only [hc, hh, hl, Bool.false_eq_true, reduceIte]

theorem c7_amended_position_fallback_witness :
    inferSeverity "WEAKNESSES".data "**Drops guard after jab combos** every exchange".data 3 =
      Severity.medium := by
  have h := c7_amended_position_fallback "WEAKNESSES".data
    "**Drops guard after jab combos** every exchange".data 3 (by decide)
  simpa using h

/-- C7 counterexample: three non-item preamble lines push the only bullet
to line index 3, so the single extracted finding (extracted-item position
0, no severity keyword) gets severity medium, where the claim predicts
high. -/
def c7sec : ReportSection :=
  ⟨"weaknesses".data, "WEAKNESSES".data,
   "intro line one\nintro line two\nintro line three\n- **Drops guard after jab combos** every exchange".data,
   []⟩

theorem c7_counterexample :
    (extractFindingsFromSection c7sec).map (fun f => f.severity) = [Severity.medium] ∧
    sevKeywordFree c7sec.title
      "**Drops guard after jab combos** every exchange".data = true := by
  decide

-- C8 ------------------------------------------------------------------------

/-- The condition under which a line of a findings section produces one
Finding, as the code computes it. -/
def isFindingItemLine (l : Str) : Bool :=
  let cl := trimWs l
  (itemLineTest cl && decide (cl.length > 15)) &&
    decide ((trimWs (stripItemMark cl)).length > 10)

theorem findingOfLine_isSome (t : Str) (i : Nat) (l : Str) :
    (findingOfLine t i l).isSome = isFindingItemLine l := by
  unfold findingOfLine isFindingItemLine
  by_cases h1 : itemLineTest (trimWs l) = true
  · by_cases h2 : (trimWs l).length > 15
    · rw [if_pos ⟨h1, h2⟩]
      by_cases h3 : (trimWs (stripItemMark (trimWs l))).length > 10
      · rw [if_pos h3]
        simp [h1, h2, h3]
      · rw [if_neg h3]
        simp [h1, h2, h3]
    · rw [if_neg (fun hx => h2 hx.2)]
      simp [h1, h2]
  · rw [if_neg (fun hx => h1 hx.1)]
    simp [h1]

theorem findingsFromLines_length (t : Str) (ls : List Str) :
    ∀ i : Nat, (findingsFromLines t i ls).length = ls.countP isFindingItemLine := by
  induction ls with
  | nil => intro i; rfl
  | cons l ls ih =>
    intro i
    rw [List.countP_cons]
    have hs := findingOfLine_isSome t i l
    rcases hf : findingOfLine t i l with _ | f
    · rw [hf] at hs
      rw [findingsFromLines, hf, ih]
      simp [← hs]
    · rw [hf] at hs
      rw [findingsFromLines, hf]
      simp only [List.length_cons, ih]
      simp [← hs]

/-- C8 amended: within a candidate section, a line produces exactly one
Finding iff (after trimming) it starts with a bullet `-`/`*`/`•` OR
contains `digits '.' whitespace` anywhere (the numbered alternative of the
test regex is not anchored), its trimmed length exceeds 15, and removing
the first occurrence of the prefix pattern leaves more than 10 characters;
a line that merely contains "N. " inside also produces a Finding, contrary
to the claim's "begins with". -/
theorem c8_amended_item_lines (sec : ReportSection) :
    (extractFindingsFromSection sec).length =
      (splitLines sec.content).countP isFindingItemLine :=
  findingsFromLines_length sec.title (splitLines sec.content) 0

/-- C8 counterexample: a line that starts with the letter 'g' (no bullet,
no leading number) still produces a Finding because "2. " occurs inside. -/
def c8sec : ReportSection :=
  ⟨"weaknesses".data, "WEAKNESSES".data,
   "gets tired after round 2. drops his hands often".data, []⟩

theorem c8_counterexample :
    (trimWs "gets tired after round 2. drops his hands often".data).headD ' ' = 'g' ∧
    headBullet (trimWs "gets tired after round 2. drops his hands often".data) = false ∧
    (extractFindingsFromSection c8sec).length = 1 := by
  decide

-- C9 ------------------------------------------------------------------------

def c9md : Str := "## DECISION TREE\n- IF **jabs lazily** THEN **slip outside** [0:12]\n".data

/-- C9 counterexample: the response of the extracted node is the verbatim
regex capture, not "slip outside". -/
theorem c9_counterexample :
    (extractDecisionTree (parseReportSections c9md)).map (fun n => n.response) ≠
      ["slip outside".data] := by
  decide

/-- C9 amended: the scenario yields exactly one DecisionNode whose trigger
is "jabs lazily" (bold stripped), whose response is the verbatim trimmed
capture "**slip outside** [0:12]" (bold markers and the timestamp bracket
included), and whose timestamp has seconds 12. -/
theorem c9_amended_decision_node :
    (extractDecisionTree (parseReportSections c9md)).map
        (fun n => (n.trigger, n.response, n.timestamp.map (fun t => t.seconds))) =
      [("jabs lazily".data, "**slip outside** [0:12]".data, some 12)] := by
  decide

-- C10 -----------------------------------------------------------------------

/-- C10: for a fixed section list the `rawContent` argument has no
influence on `extractFindings` or `extractStrengths` (ids, which are not
part of the embedding, aside). -/
theorem c10_raw_content_ignored (sections : List ReportSection) (raw1 raw2 : Str) :
    extractFindings sections raw1 = extractFindings sections raw2 ∧
    extractStrengths sections raw1 = extractStrengths sections raw2 :=
  ⟨rfl, rfl⟩

-- C3 ------------------------------------------------------------------------

/-- C3: on the empty string the assembler returns empty sections, findings
and strengths, the default overall assessment, and exactly the fixed
no-strengths validation warning. -/
theorem c3_empty_input :
    (parseSelfScoutReport [] AnalysisType.full).sections = [] ∧
    (parseSelfScoutReport [] AnalysisType.full).findings = [] ∧
    (parseSelfScoutReport [] AnalysisType.full).strengths = [] ∧
    (parseSelfScoutReport [] AnalysisType.full).overallAssessment = defaultAssessment ∧
    (parseSelfScoutReport [] AnalysisType.full).metadata.validationWarnings =
      [noStrengthsWarning] := by
  decide

-- ===========================================================================
-- CLAIM C6: overall assessment summary truncation
-- ===========================================================================

-- C6 ------------------------------------------------------------------------

theorem lastIdxAux_le (ch : Char) (bound : Nat) (l : Str) :
    ∀ (i : Nat) (acc : Int), acc ≤ (bound : Int) →
      lastIdxAux ch bound l i acc ≤ (bound : Int) := by
  induction l with
  | nil => intro i acc h; exact h
  | cons c rest ih =>
    intro i acc h
    rw [lastIdxAux]
    apply ih
    split
    · rename_i hcond
      exact_mod_cast hcond.2
    · exact h

theorem lastIdxLe_le (s : Str) (ch : Char) (bound : Nat) :
    lastIdxLe s ch bound ≤ (bound : Int) :=
  lastIdxAux_le ch bound s 0 (-1) (by omega)

theorem truncateSummary_length_le (s : Str) : (truncateSummary s).length ≤ 1501 := by
  unfold truncateSummary
  split
  · dsimp only
    split
    · rename_i hgt hbest
      rw [List.length_take]
      have h1 := lastIdxLe_le s '.' 1500
      have h2 := lastIdxLe_le s '?' 1500
      have h3 := lastIdxLe_le s '!' 1500
      have hmax : max (max (lastIdxLe s '.' 1500) (lastIdxLe s '?' 1500))
          (lastIdxLe s '!' 1500) ≤ (1500 : Int) := max_le (max_le h1 h2) h3
      have htn : (max (max (lastIdxLe s '.' 1500) (lastIdxLe s '?' 1500))
          (lastIdxLe s '!' 1500)).toNat ≤ 1500 := Int.toNat_le.mpr hmax
      omega
    · rw [List.length_take]
      omega
  · rename_i hle
    omega

theorem assembleAssessment_summary_le (content : Str) (secContent : Option Str) :
    ((assembleAssessment content secContent).summary).length ≤ 1501 := by
  unfold assembleAssessment
  rcases secContent with _ | sc
  · simp
  · simp only []
    by_cases hsc : sc = []
    · simp [hsc]
    · rw [if_neg hsc]
      split
      · simp
      · exact truncateSummary_length_le _

/-- C6 counterexample content: an assessment section whose cleaned content
has a '.' exactly at index 1500 (1500 a's, a dot, 100 b's); the truncation
cuts AFTER that dot, so the summary has 1501 characters, refuting "at most
1500 characters". -/
def c6content : Str := List.replicate 1500 'a' ++ '.' :: List.replicate 100 'b'

def c6sec : ReportSection :=
  ⟨"overall-assessment".data, "OVERALL ASSESSMENT".data, c6content, []⟩

set_option maxRecDepth 100000 in
theorem c6_counterexample :
    ((extractOverallAssessment [c6sec] []).summary).length = 1501 := by
  decide

def c6noPunct : Str := List.replicate 1600 'a'

def c6secNoPunct : ReportSection :=
  ⟨"overall-assessment".data, "OVERALL ASSESSMENT".data, c6noPunct, []⟩

set_option maxRecDepth 100000 in
/-- C6 amended: the summary is at most 1501 characters: when the cleaned
content exceeds 1500 characters it is cut just after the last '.', '?' or
'!' found at index ≤ 1500 provided that index exceeds 500 (which yields
1501 characters when the boundary sits exactly at index 1500), otherwise
hard-truncated to exactly 1500 characters; in particular a 1600-character
summary without sentence punctuation truncates to exactly 1500 characters. -/
theorem c6_amended_summary_bound :
    (∀ sections rawContent,
        ((extractOverallAssessment sections rawContent).summary).length ≤ 1501) ∧
      ((extractOverallAssessment [c6secNoPunct] []).summary).length = 1500 := by
  constructor
  · intro sections rawContent
    unfold extractOverallAssessment
    split
    · split
      · simp [defaultAssessment]
      · exact assembleAssessment_summary_le _ _
    · exact assembleAssessment_summary_le _ _
  · decide
